import Mathlib

/-!
Verification of the UDSL cache and revalidation engine.

A shallow embedding of the Stale-While-Revalidate engine of the `UDSL` class
(`packages/core/src/udsl.ts`, SWR version): the cache store, the in-flight
registry of revalidation promises, the read path of `fetchResource`, the
background revalidation `revalidateInBackground`, the explicit `revalidate`,
the four mutation operations, and the invalidation logic of
`invalidateResourceCache` / `invalidateResource` / `invalidateCache`.

Modelling choices, each matching the source:
* Payloads (`data`) are opaque values, embedded as `Nat`.
* Timestamps (`Date.now()`, `expiresAt`, `lastRevalidated`) are `Int`
  milliseconds; cache TTLs (`resource.cache`, seconds) are `Option Int` so
  that the JavaScript truthiness test `!resource.cache` (false exactly for
  `undefined` and `0`, true for negative numbers) can be embedded exactly.
* A parameter record is embedded by its `JSON.stringify` serialization
  (an `Option String`), which is all `generateCacheKey` consumes.
* The JavaScript `Map`s become association lists with `Map.get` / `Map.set` /
  `Map.delete` semantics.
* The event-loop execution is embedded as atomic steps: every synchronous
  stretch of code between two suspension points (`await`) is one step.  The
  synchronous prefix of `revalidateInBackground` (mark `isRevalidating`,
  register the promise, start the fetch) is one step; the settlement of a
  revalidation promise together with its `finally` cleanup (the first
  reaction attached to it) is one step.
* Network fetches are split into a start step (which increments a fetch
  counter, letting theorems count network calls) and a completion step
  parameterised by the fetch outcome.
-/

namespace UDSL

/-! ## Association lists with JavaScript `Map` semantics -/

/-- JavaScript `Map.get`: the value at the first occurrence of a key. -/
def findVal {α : Type} : List (String × α) → String → Option α
  | [], _ => none
  | (k', v) :: t, k => if k' = k then some v else findVal t k

/-- JavaScript `Map.set`: replace in place if the key is present, append otherwise. -/
def setVal {α : Type} : List (String × α) → String → α → List (String × α)
  | [], k, v => [(k, v)]
  | (k', v') :: t, k, v => if k' = k then (k, v) :: t else (k', v') :: setVal t k v

/-- In-place mutation of the entry at a key (the source mutates cache entries
through the reference returned by `Map.get`); absent key means no change. -/
def updateVal {α : Type} (f : α → α) : List (String × α) → String → List (String × α)
  | [], _ => []
  | (k', v) :: t, k => if k' = k then (k', f v) :: t else (k', v) :: updateVal f t k

/-! ## Data model (`packages/core/src/types.ts`) -/

/-- The `CacheEntry` record from `types.ts`. -/
structure CacheEntry where
  data : Nat
  expiresAt : Int
  isStale : Bool
  isRevalidating : Bool
  lastRevalidated : Int
deriving DecidableEq

/-- The `ResourceConfig` record from `types.ts` (the `schema` field only drives a
non-fatal logged validation and never changes state or results, so it is
omitted). `cache` is in seconds. -/
structure ResourceConfig where
  get : Option String
  post : Option String
  put : Option String
  patch : Option String
  delete : Option String
  cache : Option Int
deriving DecidableEq

/-- The `UDSLConfig` record from `types.ts`: the resource registry, immutable after
construction. -/
structure UDSLConfig where
  resources : List (String × ResourceConfig)
deriving DecidableEq

/-- JavaScript truthiness of the optional numeric TTL: `undefined` and `0`
are falsy, every other number (negative ones included) is truthy. -/
def truthyCache : Option Int → Bool
  | none => false
  | some n => n != 0

/-- A blocking cache-miss fetch started by `fetchResource` and not yet
settled; `startedAt` is the `now` captured before the fetch, which the source
reuses for `expiresAt`/`lastRevalidated` when storing the result. -/
structure PendingRead where
  cacheKey : String
  resKey : String
  startedAt : Int
deriving DecidableEq

/-- A background revalidation started by `revalidateInBackground` and not yet
settled. -/
structure PendingReval where
  cacheKey : String
  resKey : String
deriving DecidableEq

/-- The mutable state owned by one `UDSL` instance: the cache `Map`, the
`revalidationPromises` `Map` (only key membership is observable, so it is a
key list), the not-yet-settled asynchronous operations, and a counter of
network fetches that have been started. -/
structure EngineState where
  cache : List (String × CacheEntry)
  inFlight : List String
  pendingRead : List PendingRead
  pendingReval : List PendingReval
  fetchCount : Nat
deriving DecidableEq

/-- The state of a freshly constructed engine. -/
def initialState : EngineState :=
  { cache := [], inFlight := [], pendingRead := [], pendingReval := [], fetchCount := 0 }

/-! ## Key builder -/

/-- The key builder `generateCacheKey`: `params ? key + ":" + JSON.stringify(params) : key`,
with the parameter record embedded by its serialization. -/
def generateCacheKey (resourceKey : String) (params : Option String) : String :=
  match params with
  | some p => resourceKey ++ ":" ++ p
  | none => resourceKey

/-! ## Errors -/

/-- The errors the engine throws, one constructor per distinct `throw` site
message shape in the source. -/
inductive EngineError where
  | resourceNotFound (key : String)
  | endpointNotDefined (method : String) (key : String)
  | networkError (status : Nat)
  | revalidationNoData (key : String)
deriving DecidableEq

/-! ## Background revalidation (`revalidateInBackground`) -/

/-- The synchronous prefix of `revalidateInBackground`, one event-loop step:
if a promise is already registered for the key, join it (no state change);
if the resource has no `get` endpoint or a falsy `cache` TTL, silently
return; otherwise mark the existing entry `isRevalidating`, start the fetch
and register the promise — all before the first suspension point. -/
def revalidateStart (cfg : UDSLConfig) (s : EngineState) (resKey : String)
    (params : Option String) : EngineState :=
  let cacheKey := generateCacheKey resKey params
  if cacheKey ∈ s.inFlight then s
  else
    match findVal cfg.resources resKey with
    | none => s
    | some res =>
      if res.get = none ∨ truthyCache res.cache = false then s
      else
        { s with
          cache := updateVal (fun e => { e with isRevalidating := true }) s.cache cacheKey
          inFlight := cacheKey :: s.inFlight
          pendingReval := ⟨cacheKey, resKey⟩ :: s.pendingReval
          fetchCount := s.fetchCount + 1 }

/-- The TTL seconds used by the success branch of the revalidation promise
(`resource.cache! * 1000`); the registry is immutable, so this is the same
truthy value observed when the operation started. -/
def cacheSecondsFor (cfg : UDSLConfig) (resKey : String) : Int :=
  match findVal cfg.resources resKey with
  | some res => res.cache.getD 0
  | none => 0

/-- Settlement of a revalidation promise after a successful fetch, together
with its `finally` cleanup (the first reaction attached to the promise):
`cache.set` of a whole fresh entry, then deregistration. -/
def revalSuccess (cfg : UDSLConfig) (s : EngineState) (op : PendingReval)
    (data : Nat) (now : Int) : EngineState :=
  { s with
    cache := setVal s.cache op.cacheKey
      { data := data
        expiresAt := now + cacheSecondsFor cfg op.resKey * 1000
        isStale := false
        isRevalidating := false
        lastRevalidated := now }
    inFlight := s.inFlight.filter (fun k => k ≠ op.cacheKey)
    pendingReval := s.pendingReval.erase op }

/-- Settlement of a revalidation promise after a failed fetch, together with
its `finally` cleanup: reset `isRevalidating` on the entry if it still
exists (stale data kept, error logged and swallowed), then deregistration. -/
def revalFail (s : EngineState) (op : PendingReval) : EngineState :=
  { s with
    cache := updateVal (fun e => { e with isRevalidating := false }) s.cache op.cacheKey
    inFlight := s.inFlight.filter (fun k => k ≠ op.cacheKey)
    pendingReval := s.pendingReval.erase op }

/-! ## Read path (`fetchResource`) -/

/-- What a `fetchResource` call gives its caller at its first step: a thrown
configuration error, a synchronously returned cached payload, or a started
blocking fetch (the caller suspends). -/
inductive ReadOutcome where
  | err (e : EngineError)
  | value (data : Nat)
  | started
deriving DecidableEq

/-- The synchronous prefix of `fetchResource`: configuration checks, cache
lookup, and the SWR decision — serve fresh, serve stale and start a
background revalidation (without awaiting it), serve stale under an ongoing
revalidation, or start a blocking fetch on a miss. -/
def readStart (cfg : UDSLConfig) (s : EngineState) (resKey : String)
    (params : Option String) (now : Int) : ReadOutcome × EngineState :=
  match findVal cfg.resources resKey with
  | none => (.err (.resourceNotFound resKey), s)
  | some res =>
    match res.get with
    | none => (.err (.endpointNotDefined "GET" resKey), s)
    | some _ =>
      let cacheKey := generateCacheKey resKey params
      match findVal s.cache cacheKey with
      | some cached =>
        if cached.expiresAt ≤ now then
          if cached.isRevalidating = false then
            (.value cached.data,
              revalidateStart cfg
                { s with cache := updateVal (fun e => { e with isStale := true }) s.cache cacheKey }
                resKey params)
          else (.value cached.data, s)
        else (.value cached.data, s)
      | none =>
        (.started,
          { s with
            pendingRead := ⟨cacheKey, resKey, now⟩ :: s.pendingRead
            fetchCount := s.fetchCount + 1 })

/-- Completion of a blocking cache-miss fetch that succeeded: store the fresh
entry if the resource has a TTL strictly greater than zero
(`resource.cache && resource.cache > 0`), with `expiresAt` and
`lastRevalidated` computed from the `now` captured before the fetch. -/
def readComplete (cfg : UDSLConfig) (s : EngineState) (pr : PendingRead)
    (data : Nat) : EngineState :=
  let s1 := { s with pendingRead := s.pendingRead.erase pr }
  match findVal cfg.resources pr.resKey with
  | none => s1
  | some res =>
    match res.cache with
    | some c =>
      if 0 < c then
        { s1 with
          cache := setVal s1.cache pr.cacheKey
            { data := data
              expiresAt := pr.startedAt + c * 1000
              isStale := false
              isRevalidating := false
              lastRevalidated := pr.startedAt } }
      else s1
    | none => s1

/-- Completion of a blocking cache-miss fetch that failed: the error
propagates to the caller and no state is touched. -/
def readFail (s : EngineState) (pr : PendingRead) : EngineState :=
  { s with pendingRead := s.pendingRead.erase pr }

/-! ## Invalidation -/

/-- The mutation operations of `invalidateResourceCache`. -/
inductive MutOp where
  | create
  | update
  | patch
  | delete
deriving DecidableEq

/-- The key-match test of `invalidateResourceCache`:
`cacheKey === resourceKey || cacheKey.startsWith(resourceKey + ":")`,
with the prefix test expressed on the character lists. -/
def matchKey (resKey k : String) : Bool :=
  k == resKey || (resKey ++ ":").data.isPrefixOf k.data

/-- The helper `invalidateResourceCache`: collect every cache key that matches the
resource (the `create` and non-`create` branches of the source push the same
keys), then delete the collected keys from the cache and from the
revalidation-promise registry. -/
def invalidateResourceCache (s : EngineState) (resKey : String) (operation : MutOp) :
    EngineState :=
  let keysToDelete : List String :=
    (s.cache.filter fun p => matchKey resKey p.1).map fun p =>
      match operation with
      | .create => p.1
      | _ => p.1
  { s with
    cache := s.cache.filter fun p => ¬ p.1 ∈ keysToDelete
    inFlight := s.inFlight.filter fun k => ¬ k ∈ keysToDelete }

/-- Public targeted invalidation, `invalidateResource`. -/
def invalidateResource (s : EngineState) (resKey : String) : EngineState :=
  invalidateResourceCache s resKey .delete

/-- Public global invalidation, `invalidateCache`: clears the cache and the
revalidation-promise registry. -/
def invalidateCacheAll (s : EngineState) : EngineState :=
  { s with cache := [], inFlight := [] }

/-! ## Cache status (`getCacheInfo`) -/

/-- The record returned by `getCacheInfo`. -/
structure CacheInfo where
  isStale : Bool
  isRevalidating : Bool
  lastRevalidated : Int
  expiresAt : Int
deriving DecidableEq

/-- The status query `getCacheInfo`: the observable status of a cache entry, or `none` when
the key is absent. -/
def getCacheInfo (s : EngineState) (resKey : String) (params : Option String) :
    Option CacheInfo :=
  (findVal s.cache (generateCacheKey resKey params)).map fun c =>
    { isStale := c.isStale
      isRevalidating := c.isRevalidating
      lastRevalidated := c.lastRevalidated
      expiresAt := c.expiresAt }

/-! ## Mutations (`createResource` / `updateResource` / `patchResource` /
`removeResource`) -/

/-- The endpoint template each mutation requires. -/
def endpointFor (res : ResourceConfig) : MutOp → Option String
  | .create => res.post
  | .update => res.put
  | .patch => res.patch
  | .delete => res.delete

/-- The HTTP method name each mutation's missing-endpoint error mentions. -/
def methodNameFor : MutOp → String
  | .create => "POST"
  | .update => "PUT"
  | .patch => "PATCH"
  | .delete => "DELETE"

/-- One whole mutation call, parameterised by the outcome of its own fetch
(`Except` of the non-success status, or the parsed response): configuration
checks, the `executeRequest` fetch, and on success the invalidation. A
failed fetch throws before `invalidateResourceCache` runs, so invalidation
is skipped. The start of the mutation touches no engine state besides the
fetch counter, so the call is one step. -/
def mutateRun (cfg : UDSLConfig) (s : EngineState) (resKey : String) (op : MutOp)
    (outcome : Except Nat Nat) : Except EngineError Nat × EngineState :=
  match findVal cfg.resources resKey with
  | none => (.error (.resourceNotFound resKey), s)
  | some res =>
    match endpointFor res op with
    | none => (.error (.endpointNotDefined (methodNameFor op) resKey), s)
    | some _ =>
      match outcome with
      | .error status =>
        (.error (.networkError status), { s with fetchCount := s.fetchCount + 1 })
      | .ok result =>
        (.ok result,
          invalidateResourceCache { s with fetchCount := s.fetchCount + 1 } resKey op)

/-! ## Whole-call views of the blocking paths -/

/-- A whole `fetchResource` call as its caller sees it, parameterised by the
outcome of the blocking fetch (only consulted on a cache miss): the cached
branches return synchronously, the miss branch propagates a `NetworkError`
or stores and returns the fresh payload. -/
def readRun (cfg : UDSLConfig) (s : EngineState) (resKey : String)
    (params : Option String) (now : Int) (outcome : Except Nat Nat) :
    Except EngineError Nat × EngineState :=
  match readStart cfg s resKey params now with
  | (.err e, s1) => (.error e, s1)
  | (.value d, s1) => (.ok d, s1)
  | (.started, s1) =>
    let pr : PendingRead := ⟨generateCacheKey resKey params, resKey, now⟩
    match outcome with
    | .error status => (.error (.networkError status), readFail s1 pr)
    | .ok data => (.ok data, readComplete cfg s1 pr data)

/-- A whole explicit `revalidate` call along the path where no operation for
the key is already in flight (the theorems hypothesise this; the join branch
of the source awaits an operation belonging to another step of the trace):
delegate to `revalidateInBackground`, await the promise it registered — if
it registered one — and then return the cached payload, or throw the
"Revalidation failed: no data available" error when no entry exists. The
fetch outcome carries the parsed payload and the settlement time. -/
def revalidateRun (cfg : UDSLConfig) (s : EngineState) (resKey : String)
    (params : Option String) (outcome : Except Nat (Nat × Int)) :
    Except EngineError Nat × EngineState :=
  let cacheKey := generateCacheKey resKey params
  let s1 := revalidateStart cfg s resKey params
  let s2 :=
    if cacheKey ∈ s1.inFlight ∧ ¬ cacheKey ∈ s.inFlight then
      match outcome with
      | .ok (data, now) => revalSuccess cfg s1 ⟨cacheKey, resKey⟩ data now
      | .error _ => revalFail s1 ⟨cacheKey, resKey⟩
    else s1
  match findVal s2.cache cacheKey with
  | some e => (.ok e.data, s2)
  | none => (.error (.revalidationNoData resKey), s2)

/-! ## Step semantics and reachability -/

/-- One atomic event-loop step of an engine instance: the synchronous prefix
of a public operation, or the settlement of a pending asynchronous fetch. -/
inductive Step (cfg : UDSLConfig) : EngineState → EngineState → Prop where
  | read (s : EngineState) (resKey : String) (params : Option String) (now : Int) :
      Step cfg s (readStart cfg s resKey params now).2
  | readOk (s : EngineState) (pr : PendingRead) (data : Nat)
      (h : pr ∈ s.pendingRead) : Step cfg s (readComplete cfg s pr data)
  | readErr (s : EngineState) (pr : PendingRead)
      (h : pr ∈ s.pendingRead) : Step cfg s (readFail s pr)
  | revalidate (s : EngineState) (resKey : String) (params : Option String) :
      Step cfg s (revalidateStart cfg s resKey params)
  | revalOk (s : EngineState) (op : PendingReval) (data : Nat) (now : Int)
      (h : op ∈ s.pendingReval) : Step cfg s (revalSuccess cfg s op data now)
  | revalErr (s : EngineState) (op : PendingReval)
      (h : op ∈ s.pendingReval) : Step cfg s (revalFail s op)
  | mutate (s : EngineState) (resKey : String) (op : MutOp) (outcome : Except Nat Nat) :
      Step cfg s (mutateRun cfg s resKey op outcome).2
  | invalidateOne (s : EngineState) (resKey : String) :
      Step cfg s (invalidateResource s resKey)
  | invalidateAll (s : EngineState) :
      Step cfg s (invalidateCacheAll s)

/-- The states one engine instance can reach from construction. -/
inductive Reachable (cfg : UDSLConfig) : EngineState → Prop where
  | init : Reachable cfg initialState
  | step {s s' : EngineState} : Reachable cfg s → Step cfg s s' → Reachable cfg s'

/-! ## Concurrent calls against one key -/

/-- A `read` (`fetchResource`) or explicit `revalidate` call against one
fixed key, as it affects engine state; a read carries its own clock value. -/
inductive KeyCall where
  | read (now : Int)
  | reval
deriving DecidableEq

/-- The state effect of one such call (the state effect of an explicit
`revalidate` is exactly that of the `revalidateInBackground` prefix it
delegates to — joining an in-flight operation changes nothing). -/
def applyCall (cfg : UDSLConfig) (resKey : String) (params : Option String)
    (s : EngineState) : KeyCall → EngineState
  | .read now => (readStart cfg s resKey params now).2
  | .reval => revalidateStart cfg s resKey params

/-- The state after a sequence of such calls. -/
def applyCalls (cfg : UDSLConfig) (resKey : String) (params : Option String)
    (calls : List KeyCall) (s : EngineState) : EngineState :=
  calls.foldl (applyCall cfg resKey params) s

deriving instance DecidableEq for Except

/-! ## A concrete engine run used by the witnesses and counterexamples -/

/-- A registry with a cached `users` resource (TTL 5 s) and an uncached
`nocache` resource. -/
def demoConfig : UDSLConfig :=
  ⟨[("users", ⟨some "/users", some "/users", some "/users/:id", some "/users/:id",
      some "/users/:id", some 5⟩),
    ("nocache", ⟨some "/nc", none, none, none, none, none⟩)]⟩

/-- The blocking fetch started by the first read of `users`. -/
def demoRead : PendingRead := ⟨"users", "users", 0⟩

/-- After the first read of `users` at time 0: a cache miss, blocking fetch
started. -/
def demoS1 : EngineState := (readStart demoConfig initialState "users" none 0).2

/-- After that fetch resolves with payload 42: entry cached until 5000. -/
def demoS2 : EngineState := readComplete demoConfig demoS1 demoRead 42

/-- After a read at time 6000: the entry is expired, so the stale payload is
served and a background revalidation is started and registered. -/
def demoS3 : EngineState := (readStart demoConfig demoS2 "users" none 6000).2

/-- After `invalidateResource("users")` while that revalidation is in
flight: entry and registration gone, the fetch still pending. -/
def demoS4 : EngineState := invalidateResource demoS3 "users"

/-- After the orphaned revalidation resolves successfully with payload 99 at
time 7000. -/
def demoS5 : EngineState := revalSuccess demoConfig demoS4 ⟨"users", "users"⟩ 99 7000

/-- The registry of the `C10` counterexample: a resource whose TTL is the
negative number `-1` — not positive, but truthy in JavaScript. -/
def negConfig : UDSLConfig := ⟨[("neg", ⟨some "/n", none, none, none, none, some (-1)⟩)]⟩

/-- An explicit `revalidate` of `users` issued on a fresh engine, with no
cache entry: the operation is registered with nothing cached. -/
def demoReval : EngineState := revalidateStart demoConfig initialState "users" none

/-- The `C7` invariant: a cache entry flagged `isRevalidating` always has a
registered revalidation promise for its key. -/
def RevalInv (s : EngineState) : Prop :=
  ∀ k e, findVal s.cache k = some e → e.isRevalidating = true → k ∈ s.inFlight

/-! ## Association-list lemmas -/

theorem findVal_setVal_self {α : Type} (l : List (String × α)) (k : String) (v : α) :
    findVal (setVal l k v) k = some v := by
  induction l with
  | nil => simp [setVal, findVal]
  | cons p t ih =>
    obtain ⟨k', v'⟩ := p
    by_cases h : k' = k <;> simp [setVal, findVal, h, ih]

theorem findVal_setVal_of_ne {α : Type} (l : List (String × α)) {k k' : String} (v : α)
    (h : k' ≠ k) : findVal (setVal l k v) k' = findVal l k' := by
  induction l with
  | nil => simp [setVal, findVal, Ne.symm h]
  | cons p t ih =>
    obtain ⟨k0, v0⟩ := p
    by_cases h0 : k0 = k
    · subst h0
      simp [setVal, findVal, Ne.symm h]
    · simp [setVal, findVal, h0, ih]

theorem findVal_updateVal_self {α : Type} (f : α → α) (l : List (String × α)) (k : String) :
    findVal (updateVal f l k) k = (findVal l k).map f := by
  induction l with
  | nil => simp [updateVal, findVal]
  | cons p t ih =>
    obtain ⟨k', v'⟩ := p
    by_cases h : k' = k <;> simp [updateVal, findVal, h, ih]

theorem findVal_updateVal_of_ne {α : Type} (f : α → α) (l : List (String × α))
    {k k' : String} (h : k' ≠ k) : findVal (updateVal f l k) k' = findVal l k' := by
  induction l with
  | nil => simp [updateVal, findVal]
  | cons p t ih =>
    obtain ⟨k0, v0⟩ := p
    by_cases h0 : k0 = k
    · subst h0
      simp [updateVal, findVal, Ne.symm h]
    · simp [updateVal, findVal, h0, ih]

theorem updateVal_of_findVal_none {α : Type} (f : α → α) (l : List (String × α))
    {k : String} (h : findVal l k = none) : updateVal f l k = l := by
  induction l with
  | nil => simp [updateVal]
  | cons p t ih =>
    obtain ⟨k', v'⟩ := p
    by_cases h0 : k' = k
    · simp [findVal, h0] at h
    · simp [findVal, h0] at h
      simp [updateVal, h0, ih h]

theorem findVal_isSome_iff_mem {α : Type} (l : List (String × α)) (k : String) :
    (findVal l k).isSome = true ↔ ∃ v, (k, v) ∈ l := by
  induction l with
  | nil => simp [findVal]
  | cons p t ih =>
    obtain ⟨k', v'⟩ := p
    by_cases h : k' = k
    · subst h
      simp [findVal]
    · simp [findVal, h, ih, Ne.symm h]

theorem findVal_filterKey {α : Type} (q : String → Bool) (l : List (String × α))
    (k : String) :
    findVal (l.filter fun p => q p.1) k = if q k then findVal l k else none := by
  induction l with
  | nil => simp [findVal]
  | cons p t ih =>
    obtain ⟨k', v'⟩ := p
    by_cases h : k' = k
    · subst h
      by_cases hq : q k' <;> simp [findVal, hq, ih]
    · by_cases hq : q k' <;> simp [findVal, h, hq, ih]

end UDSL

namespace UDSL

theorem mem_keysToDelete (s : EngineState) (resKey k : String) :
    k ∈ (s.cache.filter fun p => matchKey resKey p.1).map (fun p => p.1)
      ↔ matchKey resKey k = true ∧ (findVal s.cache k).isSome = true := by
  rw [List.mem_map]
  constructor
  · rintro ⟨⟨k', v⟩, hp, rfl⟩
    rw [List.mem_filter] at hp
    exact ⟨hp.2, (findVal_isSome_iff_mem s.cache k').mpr ⟨v, hp.1⟩⟩
  · rintro ⟨hmk, hsome⟩
    obtain ⟨v, hv⟩ := (findVal_isSome_iff_mem s.cache k).mp hsome
    exact ⟨(k, v), List.mem_filter.mpr ⟨hv, hmk⟩, rfl⟩

theorem findVal_invalidate (s : EngineState) (resKey : String) (operation : MutOp)
    (k : String) :
    findVal (invalidateResourceCache s resKey operation).cache k
      = if matchKey resKey k then none else findVal s.cache k := by
  cases operation <;>
  · simp only [invalidateResourceCache]
    rw [findVal_filterKey
      (fun x => decide (x ∉ (s.cache.filter fun p => matchKey resKey p.1).map (fun p => p.1)))]
    by_cases hmk : matchKey resKey k = true
    · by_cases hsome : (findVal s.cache k).isSome = true
      · have hk : k ∈ (s.cache.filter fun p => matchKey resKey p.1).map (fun p => p.1) :=
          (mem_keysToDelete s resKey k).mpr ⟨hmk, hsome⟩
        simp [hk, hmk]
      · have hk : ¬ k ∈ (s.cache.filter fun p => matchKey resKey p.1).map (fun p => p.1) :=
          fun hk => hsome ((mem_keysToDelete s resKey k).mp hk).2
        simp only [Option.isSome] at hsome
        have : findVal s.cache k = none := by
          cases h : findVal s.cache k
          · rfl
          · rw [h] at hsome; simp at hsome
        simp [hk, hmk, this]
    · have hk : ¬ k ∈ (s.cache.filter fun p => matchKey resKey p.1).map (fun p => p.1) :=
        fun hk => hmk ((mem_keysToDelete s resKey k).mp hk).1
      simp [hk, hmk]

end UDSL

namespace UDSL

theorem mem_inFlight_invalidate (s : EngineState) (resKey : String) (operation : MutOp)
    (k : String) :
    k ∈ (invalidateResourceCache s resKey operation).inFlight
      ↔ k ∈ s.inFlight
        ∧ ¬(matchKey resKey k = true ∧ (findVal s.cache k).isSome = true) := by
  cases operation <;>
  · simp only [invalidateResourceCache]
    rw [List.mem_filter]
    constructor
    · rintro ⟨hmem, hp⟩
      rw [decide_eq_true_eq] at hp
      exact ⟨hmem, fun hc => hp ((mem_keysToDelete s resKey k).mpr hc)⟩
    · rintro ⟨hmem, hc⟩
      refine ⟨hmem, ?_⟩
      rw [decide_eq_true_eq]
      exact fun hk => hc ((mem_keysToDelete s resKey k).mp hk)

theorem invalidate_pendingReval (s : EngineState) (resKey : String) (operation : MutOp) :
    (invalidateResourceCache s resKey operation).pendingReval = s.pendingReval := by
  cases operation <;> rfl

theorem invalidate_fetchCount (s : EngineState) (resKey : String) (operation : MutOp) :
    (invalidateResourceCache s resKey operation).fetchCount = s.fetchCount := by
  cases operation <;> rfl

theorem matchKey_generateCacheKey (resKey : String) (params : Option String) :
    matchKey resKey (generateCacheKey resKey params) = true := by
  cases params with
  | none => simp [matchKey, generateCacheKey]
  | some p =>
    simp only [matchKey, generateCacheKey, Bool.or_eq_true]
    right
    rw [ List.isPrefixOf_iff_prefix, String.data_append]
    exact List.prefix_append _ _

end UDSL

namespace UDSL

theorem revalInv_markStale (s : EngineState) (ck : String) (h : RevalInv s) :
    RevalInv { s with cache := updateVal (fun e => { e with isStale := true }) s.cache ck } := by
  intro k e hk hrev
  by_cases hk' : k = ck
  · subst hk'
    rw [findVal_updateVal_self] at hk
    cases he : findVal s.cache k with
    | none => rw [he] at hk; exact absurd hk (by simp)
    | some e0 =>
      rw [he] at hk
      simp only [Option.map_some'] at hk
      have he' := (Option.some.inj hk).symm
      rw [he'] at hrev
      exact h k e0 he hrev
  · rw [findVal_updateVal_of_ne _ _ hk'] at hk
    exact h k e hk hrev

theorem revalInv_revalidateStart (cfg : UDSLConfig) (s : EngineState) (resKey : String)
    (params : Option String) (h : RevalInv s) :
    RevalInv (revalidateStart cfg s resKey params) := by
  by_cases hin : generateCacheKey resKey params ∈ s.inFlight
  · simpa [revalidateStart, hin] using h
  · cases hres : findVal cfg.resources resKey with
    | none => simpa [revalidateStart, hin, hres] using h
    | some res =>
      by_cases hcond : res.get = none ∨ truthyCache res.cache = false
      · simpa [revalidateStart, hin, hres, hcond] using h
      · intro k e hk hrev
        simp only [revalidateStart] at hk ⊢
        rw [if_neg hin, hres] at hk ⊢
        simp only [if_neg hcond] at hk ⊢
        by_cases hk' : k = generateCacheKey resKey params
        · rw [hk']
          exact List.mem_cons_self _ _
        · rw [findVal_updateVal_of_ne _ _ hk'] at hk
          exact List.mem_cons_of_mem _ (h k e hk hrev)

theorem revalInv_readStart (cfg : UDSLConfig) (s : EngineState) (resKey : String)
    (params : Option String) (now : Int) (h : RevalInv s) :
    RevalInv (readStart cfg s resKey params now).2 := by
  cases hres : findVal cfg.resources resKey with
  | none => simpa [readStart, hres] using h
  | some res =>
    cases hget : res.get with
    | none => simpa [readStart, hres, hget] using h
    | some u =>
      cases hent : findVal s.cache (generateCacheKey resKey params) with
      | none =>
        simp only [readStart, hres, hget, hent]
        intro k e hk hrev
        exact h k e hk hrev
      | some cached =>
        by_cases hexp : cached.expiresAt ≤ now
        · by_cases hrev0 : cached.isRevalidating = false
          · simp only [readStart, hres, hget, hent, if_pos hexp, if_pos hrev0]
            exact revalInv_revalidateStart cfg _ resKey params (revalInv_markStale s _ h)
          · simpa [readStart, hres, hget, hent, hexp, hrev0] using h
        · simpa [readStart, hres, hget, hent, hexp] using h

theorem revalInv_readComplete (cfg : UDSLConfig) (s : EngineState) (pr : PendingRead)
    (data : Nat) (h : RevalInv s) :
    RevalInv (readComplete cfg s pr data) := by
  have hbase : RevalInv { s with pendingRead := s.pendingRead.erase pr } := by
    intro k e hk hrev
    exact h k e hk hrev
  cases hres : findVal cfg.resources pr.resKey with
  | none => simpa [readComplete, hres] using hbase
  | some res =>
    cases hc : res.cache with
    | none => simpa [readComplete, hres, hc] using hbase
    | some c =>
      by_cases hpos : (0 : Int) < c
      · simp only [readComplete, hres, hc, if_pos hpos]
        intro k e hk hrev
        by_cases hk' : k = pr.cacheKey
        · subst hk'
          rw [findVal_setVal_self] at hk
          cases hk
          simp at hrev
        · rw [findVal_setVal_of_ne _ _ hk'] at hk
          exact hbase k e hk hrev
      · simpa [readComplete, hres, hc, hpos] using hbase

theorem revalInv_readFail (s : EngineState) (pr : PendingRead) (h : RevalInv s) :
    RevalInv (readFail s pr) := by
  intro k e hk hrev
  exact h k e hk hrev

theorem revalInv_revalSuccess (cfg : UDSLConfig) (s : EngineState) (op : PendingReval)
    (data : Nat) (now : Int) (h : RevalInv s) :
    RevalInv (revalSuccess cfg s op data now) := by
  intro k e hk hrev
  by_cases hk' : k = op.cacheKey
  · rw [revalSuccess] at hk
    simp only at hk
    rw [hk', findVal_setVal_self] at hk
    injection hk with hk2
    rw [← hk2] at hrev
    simp at hrev
  · rw [revalSuccess] at hk
    simp only at hk
    rw [findVal_setVal_of_ne _ _ hk'] at hk
    have := h k e hk hrev
    simp only [revalSuccess]
    rw [List.mem_filter]
    exact ⟨this, by simp [hk']⟩

theorem revalInv_revalFail (s : EngineState) (op : PendingReval) (h : RevalInv s) :
    RevalInv (revalFail s op) := by
  intro k e hk hrev
  by_cases hk' : k = op.cacheKey
  · rw [revalFail] at hk
    simp only at hk
    rw [hk', findVal_updateVal_self] at hk
    cases he : findVal s.cache op.cacheKey with
    | none => rw [he] at hk; exact absurd hk (by simp)
    | some e0 =>
      rw [he] at hk
      simp only [Option.map_some'] at hk
      have he' := (Option.some.inj hk).symm
      rw [he'] at hrev
      simp at hrev
  · rw [revalFail] at hk
    simp only at hk
    rw [findVal_updateVal_of_ne _ _ hk'] at hk
    have := h k e hk hrev
    simp only [revalFail]
    rw [List.mem_filter]
    exact ⟨this, by simp [hk']⟩

theorem revalInv_invalidate (s : EngineState) (resKey : String) (op : MutOp)
    (h : RevalInv s) : RevalInv (invalidateResourceCache s resKey op) := by
  intro k e hk hrev
  rw [findVal_invalidate] at hk
  by_cases hmk : matchKey resKey k = true
  · rw [if_pos hmk] at hk
    exact absurd hk (by simp)
  · rw [if_neg hmk] at hk
    have hmem := h k e hk hrev
    rw [mem_inFlight_invalidate]
    exact ⟨hmem, fun hc => hmk hc.1⟩

theorem revalInv_mutateRun (cfg : UDSLConfig) (s : EngineState) (resKey : String)
    (op : MutOp) (outcome : Except Nat Nat) (h : RevalInv s) :
    RevalInv (mutateRun cfg s resKey op outcome).2 := by
  cases hres : findVal cfg.resources resKey with
  | none => simpa [mutateRun, hres] using h
  | some res =>
    cases hep : endpointFor res op with
    | none => simpa [mutateRun, hres, hep] using h
    | some u =>
      cases outcome with
      | error status =>
        simp only [mutateRun, hres, hep]
        intro k e hk hrev
        exact h k e hk hrev
      | ok result =>
        simp only [mutateRun, hres, hep]
        exact revalInv_invalidate _ resKey op (fun k e hk hrev => h k e hk hrev)

theorem revalInv_invalidateAll (s : EngineState) :
    RevalInv (invalidateCacheAll s) := by
  intro k e hk hrev
  simp [invalidateCacheAll, findVal] at hk

end UDSL

namespace UDSL

/-- Claim C7: in every reachable state of one engine instance, an entry flagged
`isRevalidating` has a registered in-flight operation for the same key.
Every public operation — a `fetchResource` read, settlement of its blocking
fetch, an explicit or background revalidation and the settlement of its
promise, the four mutations, and targeted and global invalidation — appears
as a `Step` constructor, so the induction shows each of them preserves the
invariant. -/
theorem revalidating_implies_inFlight (cfg : UDSLConfig) (s : EngineState)
    (h : Reachable cfg s) :
    ∀ k e, findVal s.cache k = some e → e.isRevalidating = true → k ∈ s.inFlight := by
  induction h with
  | init => intro k e hk _; simp [initialState, findVal] at hk
  | step _ hs ih =>
    cases hs with
    | read resKey params now => exact revalInv_readStart cfg _ resKey params now ih
    | readOk pr data _ => exact revalInv_readComplete cfg _ pr data ih
    | readErr pr _ => exact revalInv_readFail _ pr ih
    | revalidate resKey params => exact revalInv_revalidateStart cfg _ resKey params ih
    | revalOk op data now _ => exact revalInv_revalSuccess cfg _ op data now ih
    | revalErr op _ => exact revalInv_revalFail _ op ih
    | mutate resKey op outcome => exact revalInv_mutateRun cfg _ resKey op outcome ih
    | invalidateOne resKey => exact revalInv_invalidate _ resKey .delete ih
    | invalidateAll => exact revalInv_invalidateAll _

end UDSL

namespace UDSL

theorem readStart_of_inFlight (cfg : UDSLConfig) (s : EngineState) (resKey : String)
    (params : Option String) (now : Int)
    (hin : generateCacheKey resKey params ∈ s.inFlight)
    (hent : (findVal s.cache (generateCacheKey resKey params)).isSome = true) :
    (readStart cfg s resKey params now).2 = s
    ∨ (readStart cfg s resKey params now).2
        = { s with cache :=
              (updateVal (fun e => { e with isStale := true }) s.cache
                (generateCacheKey resKey params)) } := by
  cases hres : findVal cfg.resources resKey with
  | none => left; simp [readStart, hres]
  | some res =>
    cases hget : res.get with
    | none => left; simp [readStart, hres, hget]
    | some u =>
      obtain ⟨e, he⟩ := Option.isSome_iff_exists.mp hent
      by_cases hexp : e.expiresAt ≤ now
      · by_cases hrev : e.isRevalidating = false
        · right
          simp only [readStart, hres, hget, he, if_pos hexp, if_pos hrev]
          simp only [revalidateStart]
          rw [if_pos hin]
        · left
          simp [readStart, hres, hget, he, hexp, hrev]
      · left
        simp [readStart, hres, hget, he, hexp]

theorem applyCall_preserves (cfg : UDSLConfig) (resKey : String) (params : Option String)
    (s : EngineState) (c : KeyCall)
    (hin : generateCacheKey resKey params ∈ s.inFlight)
    (hent : (findVal s.cache (generateCacheKey resKey params)).isSome = true) :
    (applyCall cfg resKey params s c).fetchCount = s.fetchCount
    ∧ generateCacheKey resKey params ∈ (applyCall cfg resKey params s c).inFlight
    ∧ (findVal (applyCall cfg resKey params s c).cache
        (generateCacheKey resKey params)).isSome = true := by
  cases c with
  | reval =>
    simp only [applyCall, revalidateStart]
    rw [if_pos hin]
    exact ⟨rfl, hin, hent⟩
  | read now =>
    simp only [applyCall]
    rcases readStart_of_inFlight cfg s resKey params now hin hent with hcase | hcase
    · rw [hcase]
      exact ⟨rfl, hin, hent⟩
    · rw [hcase]
      refine ⟨rfl, hin, ?_⟩
      rw [findVal_updateVal_self]
      simp [Option.isSome_map]
      exact hent

theorem applyCalls_preserves (cfg : UDSLConfig) (resKey : String) (params : Option String)
    (calls : List KeyCall) (s : EngineState)
    (hin : generateCacheKey resKey params ∈ s.inFlight)
    (hent : (findVal s.cache (generateCacheKey resKey params)).isSome = true) :
    (applyCalls cfg resKey params calls s).fetchCount = s.fetchCount := by
  induction calls generalizing s with
  | nil => rfl
  | cons c rest ih =>
    obtain ⟨h1, h2, h3⟩ := applyCall_preserves cfg resKey params s c hin hent
    have step : applyCalls cfg resKey params (c :: rest) s
        = applyCalls cfg resKey params rest (applyCall cfg resKey params s c) := rfl
    rw [step, ih (applyCall cfg resKey params s c) h2 h3, h1]

end UDSL

namespace UDSL

/-- Claim C1: a read of an expired, not-revalidating entry (for a resource with a
`get` endpoint and a truthy TTL, no operation registered for the key) returns
the stale payload synchronously — `readStart` is the synchronous prefix of
`fetchResource`, so the value is produced without awaiting the refresh —
starts and registers exactly one background fetch, and any further sequence
of `read`/`revalidate` calls against the same key while that operation is
registered adds no fetch: the total stays one. -/
theorem stale_read_single_fetch_dedup
    (cfg : UDSLConfig) (s : EngineState) (resKey : String) (params : Option String)
    (now : Int) (res : ResourceConfig) (u : String) (e : CacheEntry)
    (hres : findVal cfg.resources resKey = some res)
    (hget : res.get = some u)
    (httl : truthyCache res.cache = true)
    (hent : findVal s.cache (generateCacheKey resKey params) = some e)
    (hexp : e.expiresAt ≤ now)
    (hrev : e.isRevalidating = false)
    (hnin : ¬ generateCacheKey resKey params ∈ s.inFlight) :
    (readStart cfg s resKey params now).1 = .value e.data
    ∧ (readStart cfg s resKey params now).2.fetchCount = s.fetchCount + 1
    ∧ generateCacheKey resKey params ∈ (readStart cfg s resKey params now).2.inFlight
    ∧ findVal (readStart cfg s resKey params now).2.cache (generateCacheKey resKey params)
        = some { e with isStale := true, isRevalidating := true }
    ∧ PendingReval.mk (generateCacheKey resKey params) resKey
        ∈ (readStart cfg s resKey params now).2.pendingReval
    ∧ ∀ calls : List KeyCall,
        (applyCalls cfg resKey params calls (readStart cfg s resKey params now).2).fetchCount
          = s.fetchCount + 1 := by
  have hcond : ¬ (res.get = none ∨ truthyCache res.cache = false) := by
    rintro (h1 | h1)
    · rw [hget] at h1; exact Option.noConfusion h1
    · rw [httl] at h1; exact Bool.noConfusion h1
  have hread : readStart cfg s resKey params now
      = (.value e.data,
          { s with
            cache :=
              (updateVal (fun e => { e with isRevalidating := true })
                (updateVal (fun e => { e with isStale := true }) s.cache
                  (generateCacheKey resKey params))
                (generateCacheKey resKey params))
            inFlight := generateCacheKey resKey params :: s.inFlight
            pendingReval :=
              PendingReval.mk (generateCacheKey resKey params) resKey :: s.pendingReval
            fetchCount := s.fetchCount + 1 }) := by
    simp only [readStart, hres, hget, hent, if_pos hexp, if_pos hrev]
    simp only [revalidateStart]
    rw [if_neg hnin, hres]
    simp only [if_neg hcond]
  rw [hread]
  refine ⟨rfl, rfl, List.mem_cons_self _ _, ?_, List.mem_cons_self _ _, ?_⟩
  · rw [findVal_updateVal_self, findVal_updateVal_self, hent]
    rfl
  · intro calls
    have : (({ s with
            cache :=
              (updateVal (fun e => { e with isRevalidating := true })
                (updateVal (fun e => { e with isStale := true }) s.cache
                  (generateCacheKey resKey params))
                (generateCacheKey resKey params))
            inFlight := generateCacheKey resKey params :: s.inFlight
            pendingReval :=
              PendingReval.mk (generateCacheKey resKey params) resKey :: s.pendingReval
            fetchCount := s.fetchCount + 1 } : EngineState)).fetchCount = s.fetchCount + 1 := rfl
    rw [applyCalls_preserves cfg resKey params calls _ (List.mem_cons_self _ _) ?_, this]
    rw [findVal_updateVal_self, findVal_updateVal_self, hent]
    rfl

end UDSL

namespace UDSL

/-- Claim C2: a read of a fresh entry (`now < expiresAt`, i.e. `expiresAt > now`)
returns the stored payload unchanged and leaves the whole engine state —
cache, in-flight registry, pending operations and fetch counter — exactly as
it was: zero network calls. -/
theorem fresh_read_no_fetch
    (cfg : UDSLConfig) (s : EngineState) (resKey : String) (params : Option String)
    (now : Int) (res : ResourceConfig) (u : String) (e : CacheEntry)
    (hres : findVal cfg.resources resKey = some res)
    (hget : res.get = some u)
    (hent : findVal s.cache (generateCacheKey resKey params) = some e)
    (hfresh : now < e.expiresAt) :
    readStart cfg s resKey params now = (.value e.data, s) := by
  simp only [readStart, hres, hget, hent]
  rw [if_neg (not_le.mpr hfresh)]

/-- Claim C3: when a background revalidation settles with a failure while a cache
entry for its key exists, the only change to that entry is
`isRevalidating := false` — payload, `isStale`, `expiresAt` and
`lastRevalidated` are untouched — every other entry is untouched, the
in-flight operation is deregistered, and no fetch is added.  The settlement
function returns a plain state (no error channel): the error is logged and
swallowed, never raised to a caller. -/
theorem reval_failure_keeps_stale (s : EngineState) (op : PendingReval) (e : CacheEntry)
    (hent : findVal s.cache op.cacheKey = some e) :
    findVal (revalFail s op).cache op.cacheKey = some { e with isRevalidating := false }
    ∧ (∀ k, k ≠ op.cacheKey → findVal (revalFail s op).cache k = findVal s.cache k)
    ∧ ¬ op.cacheKey ∈ (revalFail s op).inFlight
    ∧ (∀ k, k ∈ s.inFlight → k ≠ op.cacheKey → k ∈ (revalFail s op).inFlight)
    ∧ (revalFail s op).fetchCount = s.fetchCount := by
  refine ⟨?_, ?_, ?_, ?_, rfl⟩
  · simp only [revalFail]
    rw [findVal_updateVal_self, hent]
    rfl
  · intro k hk
    simp only [revalFail]
    rw [findVal_updateVal_of_ne _ _ hk]
  · simp only [revalFail]
    intro hmem
    rw [List.mem_filter] at hmem
    simp at hmem
  · intro k hk hne
    simp only [revalFail]
    rw [List.mem_filter]
    exact ⟨hk, by simp [hne]⟩

/-- Claim C8: the key builder is deterministic and injective for a fixed resource
name — with a parameter set embedded by its serialization, two identically
serializing parameter sets give the same key (right to left), and two
different serializations, the no-params case included, give different keys
(left to right). -/
theorem generateCacheKey_deterministic_injective (name : String) (p q : Option String) :
    generateCacheKey name p = generateCacheKey name q ↔ p = q := by
  constructor
  · intro h
    match p, q with
    | none, none => rfl
    | some a, none =>
      exfalso
      have hlen := congrArg String.length h
      simp only [generateCacheKey] at hlen
      rw [String.length_append, String.length_append] at hlen
      have hone : (":" : String).length = 1 := rfl
      omega
    | none, some b =>
      exfalso
      have hlen := congrArg String.length h
      simp only [generateCacheKey] at hlen
      rw [String.length_append, String.length_append] at hlen
      have hone : (":" : String).length = 1 := rfl
      omega
    | some a, some b =>
      simp only [generateCacheKey] at h
      have hd : (name ++ ":").data ++ a.data = (name ++ ":").data ++ b.data := by
        rw [← String.data_append, ← String.data_append, h]
      exact congrArg some (String.ext (List.append_cancel_left hd))
  · rintro rfl
    rfl

/-- Claim C9: a mutation whose own fetch fails with a non-success status
propagates that `NetworkError` to the caller, skips invalidation, and leaves
the cache store, the in-flight registry and the pending operations exactly as
they were (only the count of attempted fetches grows). This holds for all
four operations `create`/`update`/`patch`/`delete`. -/
theorem mutation_failure_preserves_state
    (cfg : UDSLConfig) (s : EngineState) (resKey : String) (op : MutOp)
    (status : Nat) (res : ResourceConfig) (u : String)
    (hres : findVal cfg.resources resKey = some res)
    (hep : endpointFor res op = some u) :
    mutateRun cfg s resKey op (.error status)
      = (.error (.networkError status), { s with fetchCount := s.fetchCount + 1 }) := by
  simp only [mutateRun, hres, hep]

end UDSL

namespace UDSL

/-- Counterexample to claim C4: a reachable run in which the `users` entry is
invalidated while a revalidation is in flight, yet the successful settlement
of that orphaned operation re-creates the cache entry (`cache.set` in the
success branch is unconditional): after the completion the entry exists again
with the fresh payload. -/
theorem reval_success_resurrects_cex :
    Reachable demoConfig demoS4
    ∧ PendingReval.mk "users" "users" ∈ demoS4.pendingReval
    ∧ findVal demoS4.cache "users" = none
    ∧ findVal (revalSuccess demoConfig demoS4 ⟨"users", "users"⟩ 99 7000).cache "users"
        = some ⟨99, 12000, false, false, 7000⟩ := by
  refine ⟨?_, by decide, by decide, by decide⟩
  have h1 : Reachable demoConfig demoS1 :=
    Reachable.step Reachable.init (Step.read initialState "users" none 0)
  have h2 : Reachable demoConfig demoS2 :=
    Reachable.step h1 (Step.readOk demoS1 demoRead 42 (by decide))
  have h3 : Reachable demoConfig demoS3 :=
    Reachable.step h2 (Step.read demoS2 "users" none 6000)
  exact Reachable.step h3 (Step.invalidateOne demoS3 "users")

/-- Amended claim C4: when the cache entry for the key of an in-flight
revalidation is gone at settlement time, a failed settlement leaves the
cache untouched (and only deregisters the operation), but a successful
settlement is not a no-op: it unconditionally stores a fresh entry,
re-creating the entry for the invalidated key. -/
theorem reval_completion_after_invalidation (cfg : UDSLConfig) (s : EngineState)
    (op : PendingReval) (data : Nat) (now : Int)
    (hent : findVal s.cache op.cacheKey = none) :
    (revalFail s op).cache = s.cache
    ∧ (∀ k, k ∈ (revalFail s op).inFlight ↔ k ∈ s.inFlight ∧ k ≠ op.cacheKey)
    ∧ (revalFail s op).fetchCount = s.fetchCount
    ∧ findVal (revalSuccess cfg s op data now).cache op.cacheKey
        = some { data := data
                 expiresAt := now + cacheSecondsFor cfg op.resKey * 1000
                 isStale := false
                 isRevalidating := false
                 lastRevalidated := now } := by
  refine ⟨?_, ?_, rfl, ?_⟩
  · simp only [revalFail]
    exact updateVal_of_findVal_none _ _ hent
  · intro k
    simp only [revalFail]
    rw [List.mem_filter]
    simp
  · simp only [revalSuccess]
    rw [findVal_setVal_self]

/-- Counterexample to claim C5: on `demoS2` (a cached `users` entry, nothing in
flight) an explicit `revalidate` whose underlying fetch fails with status 500
does not surface a `NetworkError`: a fetch is performed (the counter grows)
and the caller receives the stale payload `42`. -/
theorem revalidate_swallows_network_error_cex :
    (revalidateRun demoConfig demoS2 "users" none (Except.error 500)).1 = Except.ok 42
    ∧ (revalidateRun demoConfig demoS2 "users" none (Except.error 500)).2.fetchCount
        = demoS2.fetchCount + 1 := by
  exact ⟨by decide, by decide⟩

/-- Amended claim C5: a non-success fetch status is surfaced as a `NetworkError`
on the first cache-miss fetch and on mutations, but an explicit `revalidate`
never surfaces it — the error is swallowed inside the revalidation promise,
and `revalidate` instead returns the still-cached stale payload, or throws
the `RevalidationError` "no data available" when no entry remains. -/
theorem revalidate_error_surfacing
    (cfg : UDSLConfig) (s : EngineState) (resKey : String) (params : Option String)
    (now : Int) (status : Nat) (res : ResourceConfig) (u : String)
    (hres : findVal cfg.resources resKey = some res)
    (hget : res.get = some u)
    (httl : truthyCache res.cache = true)
    (hnin : ¬ generateCacheKey resKey params ∈ s.inFlight) :
    (∀ e, findVal s.cache (generateCacheKey resKey params) = some e →
      (revalidateRun cfg s resKey params (.error status)).1 = .ok e.data)
    ∧ (findVal s.cache (generateCacheKey resKey params) = none →
      (revalidateRun cfg s resKey params (.error status)).1
        = .error (.revalidationNoData resKey))
    ∧ (findVal s.cache (generateCacheKey resKey params) = none →
      (readRun cfg s resKey params now (.error status)).1
        = .error (.networkError status))
    ∧ (∀ mop u', endpointFor res mop = some u' →
      (mutateRun cfg s resKey mop (.error status)).1 = .error (.networkError status)) := by
  have hcond : ¬ (res.get = none ∨ truthyCache res.cache = false) := by
    rintro (h1 | h1)
    · rw [hget] at h1; exact Option.noConfusion h1
    · rw [httl] at h1; exact Bool.noConfusion h1
  refine ⟨?_, ?_, ?_, ?_⟩
  · intro e hent
    simp only [revalidateRun, revalidateStart]
    rw [if_neg hnin, hres]
    simp only [if_neg hcond]
    rw [if_pos ⟨List.mem_cons_self _ _, hnin⟩]
    simp only [revalFail]
    rw [findVal_updateVal_self, findVal_updateVal_self, hent]
    rfl
  · intro hent
    simp only [revalidateRun, revalidateStart]
    rw [if_neg hnin, hres]
    simp only [if_neg hcond]
    rw [if_pos ⟨List.mem_cons_self _ _, hnin⟩]
    simp only [revalFail]
    rw [findVal_updateVal_self, findVal_updateVal_self, hent]
    rfl
  · intro hent
    simp only [readRun, readStart, hres, hget, hent]
  · intro mop u' hep
    simp only [mutateRun, hres, hep]

end UDSL

namespace UDSL

/-- Counterexample to claim C6: an in-flight registry entry whose key matches the
mutated resource but has no cache entry (an explicit `revalidate` of a
never-cached key) survives a successful mutation — `invalidateResourceCache`
only deletes registry keys it found in the cache. -/
theorem mutation_leaves_uncached_inflight_cex :
    "users" ∈ demoReval.inFlight
    ∧ findVal demoReval.cache "users" = none
    ∧ (mutateRun demoConfig demoReval "users" .create (Except.ok 1)).1 = Except.ok 1
    ∧ "users" ∈ (mutateRun demoConfig demoReval "users" .create (Except.ok 1)).2.inFlight := by
  exact ⟨by decide, by decide, by decide, by decide⟩

/-- Amended claim C6: after a successful mutation, every cache entry whose key
equals the resource name or starts with it plus ":" is deleted and no other
entry is touched, and `cacheStatus` for the resource reports absent for
every parameter set; but the in-flight registry only loses the matching keys
that also had a cache entry — a matching registry entry without a cache
entry survives. -/
theorem mutation_invalidation_scope
    (cfg : UDSLConfig) (s : EngineState) (resKey : String) (op : MutOp)
    (result : Nat) (res : ResourceConfig) (u : String)
    (hres : findVal cfg.resources resKey = some res)
    (hep : endpointFor res op = some u) :
    (mutateRun cfg s resKey op (.ok result)).1 = .ok result
    ∧ (∀ k, findVal (mutateRun cfg s resKey op (.ok result)).2.cache k
        = if matchKey resKey k then none else findVal s.cache k)
    ∧ (∀ k, k ∈ (mutateRun cfg s resKey op (.ok result)).2.inFlight
        ↔ k ∈ s.inFlight ∧ ¬(matchKey resKey k = true ∧ (findVal s.cache k).isSome = true))
    ∧ (∀ params, getCacheInfo (mutateRun cfg s resKey op (.ok result)).2 resKey params = none) := by
  simp only [mutateRun, hres, hep]
  refine ⟨trivial, ?_, ?_, ?_⟩
  · intro k
    exact findVal_invalidate { s with fetchCount := s.fetchCount + 1 } resKey op k
  · intro k
    exact mem_inFlight_invalidate { s with fetchCount := s.fetchCount + 1 } resKey op k
  · intro params
    simp only [getCacheInfo]
    rw [findVal_invalidate, if_pos (matchKey_generateCacheKey resKey params)]
    rfl

/-- Counterexample to claim C10: a resource whose configured TTL is `-1` — not a
positive TTL — still makes an explicit `revalidate` perform a network fetch
(JavaScript truthiness of `-1`), and the call returns the fetched payload
instead of throwing "no data available". -/
theorem negative_ttl_revalidate_fetches_cex :
    ((-1 : Int) ≤ 0 ∧ truthyCache (some (-1)) = true)
    ∧ (revalidateRun negConfig initialState "neg" none (Except.ok (7, 100))).2.fetchCount
        = initialState.fetchCount + 1
    ∧ (revalidateRun negConfig initialState "neg" none (Except.ok (7, 100))).1
        = Except.ok 7 := by
  exact ⟨⟨by decide, by decide⟩, by decide, by decide⟩

/-- Amended claim C10: for a resource with no `get` endpoint or with a falsy TTL
(`cache` absent or `0` — a negative TTL is truthy and does fetch), an
explicit `revalidate` performs no network fetch and changes nothing
(`revalidateInBackground` silently returns without registering an
operation); it throws "Revalidation failed: no data available" when no
entry is cached for the key, and returns the cached payload otherwise —
never the endpoint-not-configured error. -/
theorem revalidate_falsy_ttl_no_fetch
    (cfg : UDSLConfig) (s : EngineState) (resKey : String) (params : Option String)
    (outcome : Except Nat (Nat × Int)) (res : ResourceConfig)
    (hres : findVal cfg.resources resKey = some res)
    (hfalsy : res.get = none ∨ res.cache = none ∨ res.cache = some 0)
    (hnin : ¬ generateCacheKey resKey params ∈ s.inFlight) :
    (revalidateRun cfg s resKey params outcome).2 = s
    ∧ (findVal s.cache (generateCacheKey resKey params) = none →
        (revalidateRun cfg s resKey params outcome).1
          = .error (.revalidationNoData resKey))
    ∧ (∀ e, findVal s.cache (generateCacheKey resKey params) = some e →
        (revalidateRun cfg s resKey params outcome).1 = .ok e.data) := by
  have hcond : res.get = none ∨ truthyCache res.cache = false := by
    rcases hfalsy with h1 | h1 | h1
    · exact Or.inl h1
    · exact Or.inr (by rw [h1]; rfl)
    · exact Or.inr (by rw [h1]; rfl)
  have hstart : revalidateStart cfg s resKey params = s := by
    simp only [revalidateStart]
    rw [if_neg hnin, hres]
    simp only [if_pos hcond]
  refine ⟨?_, ?_, ?_⟩
  · simp only [revalidateRun, hstart]
    rw [if_neg (fun hc => hnin hc.1)]
    cases h : findVal s.cache (generateCacheKey resKey params) <;> rfl
  · intro hent
    simp only [revalidateRun, hstart]
    rw [if_neg (fun hc => hnin hc.1), hent]
  · intro e hent
    simp only [revalidateRun, hstart]
    rw [if_neg (fun hc => hnin hc.1), hent]

end UDSL

namespace UDSL

/-- Witness for `C1` at a concrete run: the stale read of `users` at time
6000 returns payload 42 and three further concurrent calls leave the fetch
total at one more than before. -/
theorem stale_read_single_fetch_dedup_witness :
    (readStart demoConfig demoS2 "users" none 6000).1 = ReadOutcome.value 42
    ∧ (applyCalls demoConfig "users" none
        [KeyCall.read 6100, KeyCall.reval, KeyCall.read 6200]
        (readStart demoConfig demoS2 "users" none 6000).2).fetchCount
      = demoS2.fetchCount + 1 := by
  have h := stale_read_single_fetch_dedup demoConfig demoS2 "users" none 6000
      ⟨some "/users", some "/users", some "/users/:id", some "/users/:id",
        some "/users/:id", some 5⟩
      "/users" ⟨42, 5000, false, false, 0⟩
      (by decide) (by decide) (by decide) (by decide) (by decide) (by decide) (by decide)
  exact ⟨h.1, h.2.2.2.2.2 _⟩

/-- Witness for `C2` at a concrete run: a read of the fresh `users` entry at
time 1000 returns 42 and the state is exactly unchanged. -/
theorem fresh_read_no_fetch_witness :
    readStart demoConfig demoS2 "users" none 1000 = (ReadOutcome.value 42, demoS2) :=
  fresh_read_no_fetch demoConfig demoS2 "users" none 1000
    ⟨some "/users", some "/users", some "/users/:id", some "/users/:id",
      some "/users/:id", some 5⟩
    "/users" ⟨42, 5000, false, false, 0⟩
    (by decide) (by decide) (by decide) (by decide)

/-- Witness for `C3` at a concrete run: a failed settlement on `demoS3`
resets only `isRevalidating` and deregisters the operation. -/
theorem reval_failure_keeps_stale_witness :
    findVal (revalFail demoS3 ⟨"users", "users"⟩).cache "users"
      = some ⟨42, 5000, true, false, 0⟩
    ∧ ¬ "users" ∈ (revalFail demoS3 ⟨"users", "users"⟩).inFlight := by
  have h := reval_failure_keeps_stale demoS3 ⟨"users", "users"⟩
      ⟨42, 5000, true, true, 0⟩ (by decide)
  exact ⟨h.1, h.2.2.1⟩

/-- Witness for the amended `C4` at a concrete run: on the invalidated state
`demoS4` a failed settlement leaves the cache as it is, while a successful
settlement re-creates the `users` entry. -/
theorem reval_completion_after_invalidation_witness :
    (revalFail demoS4 ⟨"users", "users"⟩).cache = demoS4.cache
    ∧ findVal (revalSuccess demoConfig demoS4 ⟨"users", "users"⟩ 99 7000).cache "users"
        = some ⟨99, 12000, false, false, 7000⟩ := by
  have h := reval_completion_after_invalidation demoConfig demoS4 ⟨"users", "users"⟩
      99 7000 (by decide)
  exact ⟨h.1, h.2.2.2⟩

/-- Witness for the amended `C5` at a concrete run: the failed explicit
`revalidate` of `users` returns the stale 42, while the same failing fetch
on a mutation surfaces the `NetworkError`. -/
theorem revalidate_error_surfacing_witness :
    (revalidateRun demoConfig demoS2 "users" none (Except.error 500)).1 = Except.ok 42
    ∧ (mutateRun demoConfig demoS2 "users" MutOp.create (Except.error 500)).1
        = Except.error (EngineError.networkError 500) := by
  have h := revalidate_error_surfacing demoConfig demoS2 "users" none 0 500
      ⟨some "/users", some "/users", some "/users/:id", some "/users/:id",
        some "/users/:id", some 5⟩
      "/users" (by decide) (by decide) (by decide) (by decide)
  exact ⟨h.1 ⟨42, 5000, false, false, 0⟩ (by decide),
    h.2.2.2 MutOp.create "/users" (by decide)⟩

/-- Witness for the amended `C6` at a concrete run: a successful `delete`
mutation of `users` empties the matching cache entries and `cacheStatus`
reports absent. -/
theorem mutation_invalidation_scope_witness :
    (mutateRun demoConfig demoS2 "users" MutOp.delete (Except.ok 5)).1 = Except.ok 5
    ∧ findVal (mutateRun demoConfig demoS2 "users" MutOp.delete (Except.ok 5)).2.cache "users"
        = none
    ∧ getCacheInfo (mutateRun demoConfig demoS2 "users" MutOp.delete (Except.ok 5)).2
        "users" none = none := by
  have h := mutation_invalidation_scope demoConfig demoS2 "users" MutOp.delete 5
      ⟨some "/users", some "/users", some "/users/:id", some "/users/:id",
        some "/users/:id", some 5⟩
      "/users/:id" (by decide) (by decide)
  refine ⟨h.1, ?_, h.2.2.2 none⟩
  rw [h.2.1 "users"]
  decide

/-- Witness for `C7` at a concrete reachable state: in `demoS3` the `users`
entry has `isRevalidating = true`, and the theorem yields its registered
in-flight operation. -/
theorem revalidating_implies_inFlight_witness :
    "users" ∈ demoS3.inFlight := by
  have h1 : Reachable demoConfig demoS1 :=
    Reachable.step Reachable.init (Step.read initialState "users" none 0)
  have h2 : Reachable demoConfig demoS2 :=
    Reachable.step h1 (Step.readOk demoS1 demoRead 42 (by decide))
  have h3 : Reachable demoConfig demoS3 :=
    Reachable.step h2 (Step.read demoS2 "users" none 6000)
  exact revalidating_implies_inFlight demoConfig demoS3 h3 "users"
    ⟨42, 5000, true, true, 0⟩ (by decide) (by decide)

/-- Witness for `C8` at concrete keys. -/
theorem generateCacheKey_deterministic_injective_witness :
    (generateCacheKey "users" (some "1") = generateCacheKey "users" none
      ↔ some "1" = none) :=
  generateCacheKey_deterministic_injective "users" (some "1") none

/-- Witness for `C9` at a concrete run: a failed `update` mutation of `users`
surfaces `NetworkError 404` and changes nothing but the fetch counter. -/
theorem mutation_failure_preserves_state_witness :
    mutateRun demoConfig demoS2 "users" MutOp.update (Except.error 404)
      = (Except.error (EngineError.networkError 404),
         { demoS2 with fetchCount := demoS2.fetchCount + 1 }) :=
  mutation_failure_preserves_state demoConfig demoS2 "users" MutOp.update 404
    ⟨some "/users", some "/users", some "/users/:id", some "/users/:id",
      some "/users/:id", some 5⟩
    "/users/:id" (by decide) (by decide)

/-- Witness for the amended `C10` at a concrete run: revalidating the
TTL-less `nocache` resource fetches nothing, changes nothing and throws the
no-data error. -/
theorem revalidate_falsy_ttl_no_fetch_witness :
    (revalidateRun demoConfig initialState "nocache" none (Except.ok (3, 50))).2 = initialState
    ∧ (revalidateRun demoConfig initialState "nocache" none (Except.ok (3, 50))).1
        = Except.error (EngineError.revalidationNoData "nocache") := by
  have h := revalidate_falsy_ttl_no_fetch demoConfig initialState "nocache" none
      (Except.ok (3, 50)) ⟨some "/nc", none, none, none, none, none⟩
      (by decide) (Or.inr (Or.inl rfl)) (by decide)
  exact ⟨h.1, h.2.1 (by decide)⟩

end UDSL
